import Mathlib

/-!
Verification of the chunked, resumable transfer pipeline of the
wave-energy-forecasting repository.

The development shallowly embeds the two downloader scripts
(`src/infrastructure/copernicus_downloader.py` and
`src/infrastructure/noaa_downloader.py`):

* `DT` models a Python `datetime` at hour precision (the scripts construct
  datetimes as `datetime(year, month, day, hour)`), ordered lexicographically.
* `generateChunksF` / `generate_chunks` embed `generate_chunks` of the
  Copernicus script (monthly chunks with the day of month capped at 28).
* `retryRun` embeds the `retry` helper of the Copernicus script.
* `copProcess` / `copRun` embed the Copernicus main download loop as a state
  transformer over an abstract environment that decides which external calls
  succeed; an uncaught exception is modelled as an `Option CopErr` result.
* `noaaProcess` / `noaaRun` embed the NOAA main loop (whose body is wrapped
  in try/except, so it never aborts the run).
-/

/-- A Python `datetime` truncated to hour precision, as used by
`datetime(year, month, day, hour)` in the Copernicus script. -/
@[ext]
structure DT where
  year : Nat
  month : Nat
  day : Nat
  hour : Nat
deriving DecidableEq, Repr

/-- Lexicographic comparison of datetimes, matching Python datetime order
(at the hour precision the script uses). -/
def DT.ltb (a b : DT) : Bool :=
  if a.year = b.year then
    if a.month = b.month then
      if a.day = b.day then decide (a.hour < b.hour)
      else decide (a.day < b.day)
    else decide (a.month < b.month)
  else decide (a.year < b.year)

/-- Validity of a datetime as accepted by the Python `datetime` constructor
(restricted to the fields the scripts use). -/
def DT.Valid (d : DT) : Prop :=
  1 ≤ d.month ∧ d.month ≤ 12 ∧ 1 ≤ d.day ∧ d.day ≤ 31

instance (d : DT) : Decidable d.Valid := by
  unfold DT.Valid; infer_instance

theorem DT.ltb_iff (a b : DT) : a.ltb b = true ↔
    (a.year < b.year ∨ (a.year = b.year ∧
      (a.month < b.month ∨ (a.month = b.month ∧
        (a.day < b.day ∨ (a.day = b.day ∧ a.hour < b.hour)))))) := by
  unfold DT.ltb
  split_ifs with h1 h2 h3 <;> simp [decide_eq_true_iff] <;> omega

theorem DT.ltb_irrefl (a : DT) : a.ltb a = false := by
  simp [DT.ltb]

theorem DT.ltb_asymm {a b : DT} (h : a.ltb b = true) : b.ltb a = false := by
  rw [DT.ltb_iff] at h
  cases hba : b.ltb a
  · rfl
  · rw [DT.ltb_iff] at hba; omega

theorem DT.eq_of_not_ltb {a b : DT} (h1 : a.ltb b = false)
    (h2 : b.ltb a = false) : a = b := by
  have ha := DT.ltb_iff a b
  have hb := DT.ltb_iff b a
  rw [h1] at ha; rw [h2] at hb
  simp at ha hb
  ext <;> omega

/-- The month index `year * 12 + month`, used as a termination measure for the
chunk generator. -/
def DT.monthIdx (d : DT) : Nat := d.year * 12 + d.month

theorem DT.monthIdx_le_of_ltb {a b : DT} (h : a.ltb b = true)
    (ha : a.month ≤ 12) : a.monthIdx ≤ b.monthIdx := by
  rw [DT.ltb_iff] at h
  unfold DT.monthIdx
  rcases h with h | ⟨he, _⟩
  · nlinarith
  · omega

/-- One step of the Copernicus chunk generator before truncation at the domain
end: `datetime(current.year + current.month // 12, current.month % 12 + 1,
min(current.day, 28), current.hour)`. -/
def nextChunkRaw (current : DT) : DT :=
  { year := current.year + current.month / 12
    month := current.month % 12 + 1
    day := min current.day 28
    hour := current.hour }

theorem monthIdx_nextChunkRaw (c : DT) :
    (nextChunkRaw c).monthIdx = c.monthIdx + 1 := by
  unfold nextChunkRaw DT.monthIdx
  simp
  omega

theorem ltb_nextChunkRaw (c : DT) : c.ltb (nextChunkRaw c) = true := by
  rw [DT.ltb_iff]
  unfold nextChunkRaw
  simp
  omega

theorem nextChunkRaw_month_le (c : DT) : (nextChunkRaw c).month ≤ 12 := by
  unfold nextChunkRaw
  simp
  omega

theorem nextChunkRaw_valid {c : DT} (h : c.Valid) : (nextChunkRaw c).Valid := by
  unfold DT.Valid at *
  unfold nextChunkRaw
  simp
  omega

/-- The next chunk boundary: the raw monthly step truncated to the domain end
(`if next_chunk > end: next_chunk = end`). -/
def nextChunk (current e : DT) : DT :=
  let n := nextChunkRaw current
  if e.ltb n then e else n

/-- Fuelled version of the `while current < end` loop of `generate_chunks` in
the Copernicus script.  Each iteration yields the pair
`(current, next_chunk)` and continues from `next_chunk`. -/
def generateChunksF : Nat → DT → DT → List (DT × DT)
  | 0, _, _ => []
  | fuel + 1, current, e =>
    if current.ltb e then
      (current, nextChunk current e) :: generateChunksF fuel (nextChunk current e) e
    else []

/-- Fuel sufficient for `generateChunksF` to run the source loop to
completion. -/
def chunkFuel (s e : DT) : Nat := e.monthIdx + 1 - s.monthIdx

/-- The chunk sequence produced by `generate_chunks(start, end)` in the
Copernicus script. -/
def generate_chunks (s e : DT) : List (DT × DT) :=
  generateChunksF (chunkFuel s e) s e

theorem generateChunksF_nil {c e : DT} (h : c.ltb e = false) :
    ∀ fuel, generateChunksF fuel c e = [] := by
  intro fuel
  cases fuel <;> simp [generateChunksF, h]

theorem generateChunksF_norm (e : DT) :
    ∀ fuel c, c.month ≤ 12 → chunkFuel c e ≤ fuel →
      generateChunksF fuel c e = generate_chunks c e := by
  intro fuel
  induction fuel with
  | zero =>
    intro c _ hle
    unfold generate_chunks
    have : chunkFuel c e = 0 := Nat.le_zero.mp hle
    rw [this]
  | succ f ih =>
    intro c hm hle
    unfold generate_chunks
    cases hce : c.ltb e
    · rw [generateChunksF_nil hce, generateChunksF_nil hce]
    · have hidx : c.monthIdx ≤ e.monthIdx := DT.monthIdx_le_of_ltb hce hm
      have hB : 1 ≤ chunkFuel c e := by unfold chunkFuel; omega
      obtain ⟨B, hBe⟩ : ∃ B, chunkFuel c e = B + 1 :=
        ⟨chunkFuel c e - 1, by omega⟩
      rw [hBe]
      simp only [generateChunksF, hce, if_true]
      unfold nextChunk
      cases her : e.ltb (nextChunkRaw c)
      · -- next chunk is the raw monthly step
        simp only [her, Bool.false_eq_true, if_false]
        cases hre : (nextChunkRaw c).ltb e
        · have hend : nextChunkRaw c = e := DT.eq_of_not_ltb hre her
          rw [hend, generateChunksF_nil (DT.ltb_irrefl e),
            generateChunksF_nil (DT.ltb_irrefl e)]
        · have hm' : (nextChunkRaw c).month ≤ 12 := nextChunkRaw_month_le c
          have hBr : chunkFuel (nextChunkRaw c) e = B := by
            unfold chunkFuel at hBe ⊢
            rw [monthIdx_nextChunkRaw]
            omega
          have hf : chunkFuel (nextChunkRaw c) e ≤ f := by omega
          rw [ih (nextChunkRaw c) hm' hf, ← hBr]
          rfl
      · -- next chunk is truncated to the domain end
        simp only [her, if_true]
        rw [generateChunksF_nil (DT.ltb_irrefl e),
          generateChunksF_nil (DT.ltb_irrefl e)]

/-- `chainFromB s e l = true` states that the intervals of `l`, in order,
tile the half-open interval from `s` to `e`: the first interval starts at
`s`, every interval is nonempty, each interval ends where the next begins,
and the last interval ends exactly at `e` (no gaps, no overlaps). -/
def chainFromB (s e : DT) : List (DT × DT) → Bool
  | [] => decide (s = e)
  | (a, b) :: rest => decide (a = s) && a.ltb b && chainFromB b e rest

/-- Every interval of the list spans at most one raw monthly step (the
granularity used by `generate_chunks`, with the day capped at 28). -/
def withinMonthB : List (DT × DT) → Bool
  | [] => true
  | (a, b) :: rest => !(nextChunkRaw a).ltb b && withinMonthB rest

theorem ltb_nextChunk (c e : DT) (hce : c.ltb e = true) :
    c.ltb (nextChunk c e) = true := by
  unfold nextChunk
  cases her : e.ltb (nextChunkRaw c)
  · simpa [her] using ltb_nextChunkRaw c
  · simpa [her] using hce

theorem generateChunksF_chain (e : DT) :
    ∀ fuel c, c.month ≤ 12 → chunkFuel c e ≤ fuel → c.ltb e = true →
      chainFromB c e (generateChunksF fuel c e) = true := by
  intro fuel
  induction fuel with
  | zero =>
    intro c hm hle hce
    have hidx : c.monthIdx ≤ e.monthIdx := DT.monthIdx_le_of_ltb hce hm
    unfold chunkFuel at hle
    omega
  | succ f ih =>
    intro c hm hle hce
    simp only [generateChunksF, hce, if_true, chainFromB, Bool.and_eq_true,
      decide_eq_true_iff]
    refine ⟨⟨trivial, ltb_nextChunk c e hce⟩, ?_⟩
    unfold nextChunk
    cases her : e.ltb (nextChunkRaw c)
    · simp only [her, Bool.false_eq_true, if_false]
      cases hre : (nextChunkRaw c).ltb e
      · have hend : nextChunkRaw c = e := DT.eq_of_not_ltb hre her
        rw [hend, generateChunksF_nil (DT.ltb_irrefl e)]
        simp [chainFromB]
      · have hm' : (nextChunkRaw c).month ≤ 12 := nextChunkRaw_month_le c
        have hidx : c.monthIdx ≤ e.monthIdx := DT.monthIdx_le_of_ltb hce hm
        have hf : chunkFuel (nextChunkRaw c) e ≤ f := by
          unfold chunkFuel at hle ⊢
          rw [monthIdx_nextChunkRaw]
          omega
        exact ih (nextChunkRaw c) hm' hf hre
    · simp only [her, if_true]
      rw [generateChunksF_nil (DT.ltb_irrefl e)]
      simp [chainFromB]

theorem generateChunksF_withinMonth (e : DT) :
    ∀ fuel c, withinMonthB (generateChunksF fuel c e) = true := by
  intro fuel
  induction fuel with
  | zero => intro c; simp [generateChunksF, withinMonthB]
  | succ f ih =>
    intro c
    cases hce : c.ltb e
    · rw [generateChunksF_nil hce]
      simp [withinMonthB]
    · simp only [generateChunksF, hce, if_true, withinMonthB, Bool.and_eq_true]
      refine ⟨?_, ih (nextChunk c e)⟩
      unfold nextChunk
      cases her : e.ltb (nextChunkRaw c)
      · simp [her, DT.ltb_irrefl]
      · simp [her, DT.ltb_asymm her]

theorem nextChunkRaw_december (y d h : Nat) :
    nextChunkRaw ⟨y, 12, d, h⟩ = ⟨y + 1, 1, min d 28, h⟩ := by
  simp [nextChunkRaw]

/-- Two-digit zero padding, as produced by `strftime` for months and days. -/
def pad2 (n : Nat) : String :=
  if n < 10 then "0" ++ toString n else toString n

/-- Four-digit zero padding, as produced by `strftime('%Y')` for years. -/
def pad4 (n : Nat) : String :=
  if n < 10 then "000" ++ toString n
  else if n < 100 then "00" ++ toString n
  else if n < 1000 then "0" ++ toString n
  else toString n

/-- `d.strftime('%Y%m%d')` for a datetime `d`. -/
def dateStr (d : DT) : String := pad4 d.year ++ pad2 d.month ++ pad2 d.day

/-- The chunk identifier used by the Copernicus script:
`f"{chunk_start.strftime('%Y%m%d')}_{chunk_end.strftime('%Y%m%d')}"`. -/
def chunkName (c : DT × DT) : String := dateStr c.1 ++ "_" ++ dateStr c.2

instance {E A : Type} [DecidableEq E] [DecidableEq A] :
    DecidableEq (Except E A) := fun a b =>
  match a, b with
  | .ok x, .ok y =>
    if h : x = y then .isTrue (by rw [h]) else .isFalse (by simp [h])
  | .error x, .error y =>
    if h : x = y then .isTrue (by rw [h]) else .isFalse (by simp [h])
  | .ok _, .error _ => .isFalse (by simp)
  | .error _, .ok _ => .isFalse (by simp)

/-- Observable trace of one call to the `retry` helper of the Copernicus
script: the returned or raised outcome (`none` models the loop falling
through, which happens only for `max_attempts = 0`), the failures printed,
the sleeps performed, and the attempt numbers at which the operation was
invoked. -/
structure RetryTrace (E A : Type) where
  result : Option (Except E A)
  failures : List E
  sleeps : List Nat
  calls : List Nat
deriving Repr, DecidableEq

/-- The body of `retry`: `for attempt in range(1, max_attempts+1)` over the
remaining attempt numbers.  The operation is modelled as a function from the
attempt number to its outcome.  On failure the error is printed; if
`attempt < max_attempts` the loop sleeps `delay` and retries, otherwise the
last error is re-raised unchanged. -/
def retryGo {E A : Type} (op : Nat → Except E A) (maxAttempts delay : Nat) :
    List Nat → RetryTrace E A
  | [] => ⟨none, [], [], []⟩
  | attempt :: rest =>
    match op attempt with
    | .ok v => ⟨some (.ok v), [], [], [attempt]⟩
    | .error err =>
      if attempt < maxAttempts then
        let t := retryGo op maxAttempts delay rest
        ⟨t.result, err :: t.failures, delay :: t.sleeps, attempt :: t.calls⟩
      else
        ⟨some (.error err), [err], [], [attempt]⟩

/-- `retry(func, max_attempts, delay)` of the Copernicus script. -/
def retryRun {E A : Type} (op : Nat → Except E A) (maxAttempts delay : Nat) :
    RetryTrace E A :=
  retryGo op maxAttempts delay (List.range' 1 maxAttempts)


theorem retryGo_ok {E A : Type} (op : Nat → Except E A) (maxA delay : Nat)
    (f : Nat → E) (v : A) :
    ∀ j s n, j < n → (∀ i, s ≤ i → i < s + j → op i = .error (f i)) →
      op (s + j) = .ok v → s + n = maxA + 1 →
      retryGo op maxA delay (List.range' s n) =
        ⟨some (.ok v), (List.range' s j).map f, List.replicate j delay,
          List.range' s (j + 1)⟩ := by
  intro j
  induction j with
  | zero =>
    intro s n hj _ hok _
    obtain ⟨n', rfl⟩ : ∃ n', n = n' + 1 := ⟨n - 1, by omega⟩
    rw [List.range'_succ]
    rw [show s + 0 = s from rfl] at hok
    simp only [retryGo, hok]
    rfl
  | succ j ih =>
    intro s n hj hfail hok hlast
    obtain ⟨n', rfl⟩ : ∃ n', n = n' + 1 := ⟨n - 1, by omega⟩
    rw [List.range'_succ]
    have hs : op s = .error (f s) := hfail s (le_refl s) (by omega)
    simp only [retryGo, hs]
    have hlt : s < maxA := by omega
    rw [if_pos hlt]
    have hrec := ih (s + 1) n' (by omega)
      (fun i h1 h2 => hfail i (by omega) (by omega))
      (by rw [show s + 1 + j = s + (j + 1) from by omega]; exact hok)
      (by omega)
    rw [hrec]
    simp [List.range'_succ, List.replicate_succ]

theorem retryGo_fail {E A : Type} (op : Nat → Except E A) (maxA delay : Nat)
    (f : Nat → E) (hall : ∀ i, op i = .error (f i)) :
    ∀ n s, 1 ≤ n → s + n = maxA + 1 →
      retryGo op maxA delay (List.range' s n) =
        ⟨some (.error (f maxA)), (List.range' s n).map f,
          List.replicate (n - 1) delay, List.range' s n⟩ := by
  intro n
  induction n with
  | zero => intro s h1 _; omega
  | succ n' ih =>
    intro s _ hlast
    rw [List.range'_succ]
    simp only [retryGo, hall s]
    cases n' with
    | zero =>
      have hs : s = maxA := by omega
      rw [if_neg (by omega)]
      subst hs
      simp
    | succ m =>
      rw [if_pos (by omega)]
      have hrec := ih (s + 1) (by omega) (by omega)
      rw [hrec]
      simp [List.range'_succ, List.replicate_succ]

/-- Outcome of the external calls made for one chunk of the Copernicus
pipeline, indexed by the chunk name: whether `copernicusmarine.open_dataset`
(after retries), `to_netcdf` (after retries), `s3.upload_file` (after
retries), and the `save_log` ledger write succeed.  A `false` for one of the
retried steps models the `retry` helper exhausting its attempts and
re-raising. -/
structure ChunkOutcome where
  fetchOk : Bool
  saveOk : Bool
  uploadOk : Bool
  commitOk : Bool
deriving Repr, DecidableEq

/-- Uncaught exception escaping the body of the Copernicus main loop.  The
loop body is not wrapped in try/except, so any of these aborts the run. -/
inductive CopErr where
  | fetchFail (name : String)
  | saveFail (name : String)
  | uploadFail (name : String)
  | ledgerFail (name : String)
deriving Repr, DecidableEq

/-- Observable state of the Copernicus pipeline: the in-memory
`completed_chunks` list, the persisted contents of `download_log.json`, the
staging files present in `temp_downloads`, the chunk names successfully
uploaded, and event logs (skip lines, fetch calls, upload calls, `save_log`
calls, attempted chunks). -/
structure CopState where
  ledger : List String
  persisted : List String
  staged : List String
  uploaded : List String
  skips : List String
  fetchCalls : List String
  uploadCalls : List String
  commitCalls : List String
  attempts : List String
deriving Repr, DecidableEq

/-- The initial Copernicus state: `completed_chunks` loaded from the log
file (`L0`), nothing staged or uploaded in this run. -/
def copInit (L0 : List String) : CopState :=
  { ledger := L0, persisted := L0, staged := [], uploaded := [], skips := []
    fetchCalls := [], uploadCalls := [], commitCalls := [], attempts := [] }

/-- One iteration of the Copernicus main loop over chunk `c`
(lines 64-102 of `copernicus_downloader.py`), returning the new state and
the uncaught exception, if any:
1. skip with a log line if the chunk name is in `completed_chunks`;
2. `retry(copernicusmarine.open_dataset, ...)` — abort on failure;
3. `retry(ds.chunk(...).to_netcdf, path=temp_file)` — creates the staging
   file on success, aborts on failure;
4. `retry(s3.upload_file, ...)` — abort on failure, leaving the staging
   file in place;
5. `os.remove(temp_file)`;
6. `completed_chunks.append(chunk_name)` then `save_log()`, which persists
   the whole list; a failing write aborts the run after the in-memory
   append. -/
def copProcess (env : String → ChunkOutcome) (st : CopState) (c : DT × DT) :
    CopState × Option CopErr :=
  let name := chunkName c
  if name ∈ st.ledger then
    ({ st with skips := st.skips ++ [name] }, none)
  else
    let st1 := { st with attempts := st.attempts ++ [name]
                         fetchCalls := st.fetchCalls ++ [name] }
    if (env name).fetchOk = false then (st1, some (.fetchFail name))
    else if (env name).saveOk = false then (st1, some (.saveFail name))
    else
      let st2 := { st1 with staged := st1.staged ++ [name ++ ".nc"]
                            uploadCalls := st1.uploadCalls ++ [name] }
      if (env name).uploadOk = false then (st2, some (.uploadFail name))
      else
        let led := st2.ledger ++ [name]
        let st3 := { st2 with uploaded := st2.uploaded ++ [name]
                              staged := st2.staged.erase (name ++ ".nc")
                              ledger := led
                              commitCalls := st2.commitCalls ++ [name] }
        if (env name).commitOk then ({ st3 with persisted := led }, none)
        else (st3, some (.ledgerFail name))

/-- The Copernicus main loop over a list of chunks.  An uncaught exception
stops the loop immediately (the script has no try/except around the body),
leaving the remaining chunks unprocessed. -/
def copRun (env : String → ChunkOutcome) : CopState → List (DT × DT) →
    CopState × Option CopErr
  | st, [] => (st, none)
  | st, c :: rest =>
    match (copProcess env st c).2 with
    | none => copRun env (copProcess env st c).1 rest
    | some err => ((copProcess env st c).1, some err)

/-- Python `str.split('/')` on a character list: the accumulator holds the
current component reversed. -/
def splitSlashAux : List Char → List Char → List (List Char)
  | acc, [] => [acc.reverse]
  | acc, c :: cs =>
    if c = '/' then acc.reverse :: splitSlashAux [] cs
    else splitSlashAux (c :: acc) cs

/-- Python `key.split('/')`. -/
def splitSlash (s : String) : List String :=
  (splitSlashAux [] s.data).map String.mk

/-- Python `str.replace(pat, rep)` on character lists: replace every
non-overlapping occurrence left to right (`pat` is nonempty in the script).
The fuel is the length of the subject string. -/
def replChars (pat rep : List Char) : Nat → List Char → List Char
  | _, [] => []
  | 0, s => s
  | fuel + 1, c :: cs =>
    if pat.isPrefixOf (c :: cs) then
      rep ++ replChars pat rep fuel (List.drop (pat.length - 1) cs)
    else c :: replChars pat rep fuel cs

/-- Python `s.replace(pat, rep)`. -/
def pyReplace (s pat rep : String) : String :=
  String.mk (replChars pat.data rep.data s.data.length s.data)

/-- Python `key.endswith(suf)`. -/
def strEndsWith (s suf : String) : Bool := List.isSuffixOf suf.data s.data

/-- `filename = key.split('/')[-1]` of the NOAA script. -/
def noaaFilename (key : String) : String := (splitSlash key).getLastD ""

/-- Outcome of the external calls made for one key of the NOAA loop:
whether `s3.get_object`, `xr.open_dataset`, `subset.to_netcdf`,
`s3.upload_file`, and the checkpoint write succeed. -/
structure NoaaOutcome where
  getOk : Bool
  openOk : Bool
  saveOk : Bool
  uploadOk : Bool
  commitOk : Bool
deriving Repr, DecidableEq

/-- Observable state of the NOAA loop: the in-memory `completed_files`
set, the persisted contents of `progress_checkpoint.json`, staging files in
`/tmp`, uploaded filenames, and event logs (skip lines, attempted files,
error lines printed by the `except` handler, `get_object` calls, upload
calls). -/
structure NoaaState where
  completed : List String
  persisted : List String
  staged : List String
  uploaded : List String
  skips : List String
  attempts : List String
  errLogs : List String
  getCalls : List String
  uploadCalls : List String
deriving Repr, DecidableEq

/-- Initial NOAA state: `completed_files` loaded from the checkpoint file
(`L0`). -/
def noaaInit (L0 : List String) : NoaaState :=
  { completed := L0, persisted := L0, staged := [], uploaded := [], skips := []
    attempts := [], errLogs := [], getCalls := [], uploadCalls := [] }

/-- One iteration of the NOAA loop over `key` (lines 36-81 of
`noaa_downloader.py`).  The body is wrapped in
`try ... except Exception: print(error); continue`, so every failure path
appends an error line naming the file and returns normally:
1. skip with a log line if the filename is in `completed_files`;
2. `s3.get_object` and `xr.open_dataset` from memory;
3. `key.split('/')[4]` (an out-of-range index raises and is caught);
4. `subset.to_netcdf(local_nc_path)` creates the staging file;
5. `s3.upload_file`, then `os.remove(local_nc_path)` on success only;
6. `completed_files.add(filename)` then the checkpoint write, whose
   failure is also caught by the same handler. -/
def noaaProcess (env : String → NoaaOutcome) (st : NoaaState) (key : String) :
    NoaaState :=
  let filename := noaaFilename key
  if filename ∈ st.completed then
    { st with skips := st.skips ++ [filename] }
  else
    let o := env key
    let st1 := { st with attempts := st.attempts ++ [filename]
                         getCalls := st.getCalls ++ [key] }
    if o.getOk = false then { st1 with errLogs := st1.errLogs ++ [filename] }
    else if o.openOk = false then { st1 with errLogs := st1.errLogs ++ [filename] }
    else
      match (splitSlash key)[4]? with
      | none => { st1 with errLogs := st1.errLogs ++ [filename] }
      | some _ =>
        let ncName := pyReplace filename ".grib2" ".nc"
        if o.saveOk = false then { st1 with errLogs := st1.errLogs ++ [filename] }
        else
          let st2 := { st1 with staged := st1.staged ++ [ncName]
                                uploadCalls := st1.uploadCalls ++ [key] }
          if o.uploadOk = false then { st2 with errLogs := st2.errLogs ++ [filename] }
          else
            let comp := st2.completed ++ [filename]
            let st3 := { st2 with uploaded := st2.uploaded ++ [filename]
                                  staged := st2.staged.erase ncName
                                  completed := comp }
            if o.commitOk then { st3 with persisted := comp }
            else { st3 with errLogs := st3.errLogs ++ [filename] }

/-- The NOAA loop over the listed keys; it always runs to the end of the
list because every iteration catches its own exceptions. -/
def noaaRun (env : String → NoaaOutcome) : NoaaState → List String → NoaaState
  | st, [] => st
  | st, key :: rest => noaaRun env (noaaProcess env st key) rest

/-- Single-page result of `s3.list_objects_v2(Bucket=..., Prefix=...)`.
Modelled from the spec: the boto3 call itself is external to the
repository (spec section 6, `listObjects(bucket, prefix) -> keys`); a
single unpaginated `list_objects_v2` call returns at most the first page of
matching keys (the default `MaxKeys` page size of 1000), and the script
does no continuation handling. -/
def s3ListFirstPage (allKeys : List String) : List String := allKeys.take 1000

/-- `grib_files` of the NOAA script: the keys of the single listing page
whose name ends in `.grib2`. -/
def gribFiles (allKeys : List String) : List String :=
  (s3ListFirstPage allKeys).filter (fun k => strEndsWith k ".grib2")

/-- All external calls of the Copernicus pipeline succeed. -/
def copEnvOk (env : String → ChunkOutcome) : Prop :=
  ∀ n, env n = ⟨true, true, true, true⟩

/-- All `save_log` ledger writes of the Copernicus pipeline succeed. -/
def copCommitsOk (env : String → ChunkOutcome) : Prop :=
  ∀ n, (env n).commitOk = true

theorem copRun_nil (env : String → ChunkOutcome) (st : CopState) :
    copRun env st [] = (st, none) := rfl

theorem copRun_cons_ok (env : String → ChunkOutcome) (st : CopState)
    (c : DT × DT) (rest : List (DT × DT))
    (h : (copProcess env st c).2 = none) :
    copRun env st (c :: rest) = copRun env (copProcess env st c).1 rest := by
  simp [copRun, h]

theorem copRun_cons_err (env : String → ChunkOutcome) (st : CopState)
    (c : DT × DT) (rest : List (DT × DT)) (err : CopErr)
    (h : (copProcess env st c).2 = some err) :
    copRun env st (c :: rest) = ((copProcess env st c).1, some err) := by
  simp [copRun, h]

theorem copRun_cons_ok2 (env : String → ChunkOutcome) (st st' : CopState)
    (c : DT × DT) (rest : List (DT × DT))
    (h : copProcess env st c = (st', none)) :
    copRun env st (c :: rest) = copRun env st' rest := by
  simp [copRun, h]

theorem copRun_cons_err2 (env : String → ChunkOutcome) (st st' : CopState)
    (c : DT × DT) (rest : List (DT × DT)) (err : CopErr)
    (h : copProcess env st c = (st', some err)) :
    copRun env st (c :: rest) = (st', some err) := by
  simp [copRun, h]

theorem copProcess_skip (env : String → ChunkOutcome) (st : CopState)
    (c : DT × DT) (h : chunkName c ∈ st.ledger) :
    copProcess env st c =
      ({ st with skips := st.skips ++ [chunkName c] }, none) := by
  simp [copProcess, h]

theorem copProcess_fetchFail (env : String → ChunkOutcome) (st : CopState)
    (c : DT × DT) (h : chunkName c ∉ st.ledger)
    (hf : (env (chunkName c)).fetchOk = false) :
    copProcess env st c =
      ({ st with attempts := st.attempts ++ [chunkName c]
                 fetchCalls := st.fetchCalls ++ [chunkName c] },
        some (.fetchFail (chunkName c))) := by
  simp [copProcess, h, hf]

theorem copProcess_saveFail (env : String → ChunkOutcome) (st : CopState)
    (c : DT × DT) (h : chunkName c ∉ st.ledger)
    (hf : (env (chunkName c)).fetchOk = true)
    (hs : (env (chunkName c)).saveOk = false) :
    copProcess env st c =
      ({ st with attempts := st.attempts ++ [chunkName c]
                 fetchCalls := st.fetchCalls ++ [chunkName c] },
        some (.saveFail (chunkName c))) := by
  simp [copProcess, h, hf, hs]

theorem copProcess_uploadFail (env : String → ChunkOutcome) (st : CopState)
    (c : DT × DT) (h : chunkName c ∉ st.ledger)
    (hf : (env (chunkName c)).fetchOk = true)
    (hs : (env (chunkName c)).saveOk = true)
    (hu : (env (chunkName c)).uploadOk = false) :
    copProcess env st c =
      ({ st with attempts := st.attempts ++ [chunkName c]
                 fetchCalls := st.fetchCalls ++ [chunkName c]
                 staged := st.staged ++ [chunkName c ++ ".nc"]
                 uploadCalls := st.uploadCalls ++ [chunkName c] },
        some (.uploadFail (chunkName c))) := by
  simp [copProcess, h, hf, hs, hu]

theorem copProcess_success (env : String → ChunkOutcome) (st : CopState)
    (c : DT × DT) (h : chunkName c ∉ st.ledger)
    (hf : (env (chunkName c)).fetchOk = true)
    (hs : (env (chunkName c)).saveOk = true)
    (hu : (env (chunkName c)).uploadOk = true)
    (hc : (env (chunkName c)).commitOk = true)
    (hx : chunkName c ++ ".nc" ∉ st.staged) :
    copProcess env st c =
      ({ st with attempts := st.attempts ++ [chunkName c]
                 fetchCalls := st.fetchCalls ++ [chunkName c]
                 uploadCalls := st.uploadCalls ++ [chunkName c]
                 uploaded := st.uploaded ++ [chunkName c]
                 ledger := st.ledger ++ [chunkName c]
                 commitCalls := st.commitCalls ++ [chunkName c]
                 persisted := st.ledger ++ [chunkName c] }, none) := by
  simp [copProcess, h, hf, hs, hu, hc, List.erase_append_right _ hx]

theorem copProcess_commitFail (env : String → ChunkOutcome) (st : CopState)
    (c : DT × DT) (h : chunkName c ∉ st.ledger)
    (hf : (env (chunkName c)).fetchOk = true)
    (hs : (env (chunkName c)).saveOk = true)
    (hu : (env (chunkName c)).uploadOk = true)
    (hc : (env (chunkName c)).commitOk = false)
    (hx : chunkName c ++ ".nc" ∉ st.staged) :
    copProcess env st c =
      ({ st with attempts := st.attempts ++ [chunkName c]
                 fetchCalls := st.fetchCalls ++ [chunkName c]
                 uploadCalls := st.uploadCalls ++ [chunkName c]
                 uploaded := st.uploaded ++ [chunkName c]
                 ledger := st.ledger ++ [chunkName c]
                 commitCalls := st.commitCalls ++ [chunkName c] },
        some (.ledgerFail (chunkName c))) := by
  simp [copProcess, h, hf, hs, hu, hc, List.erase_append_right _ hx]

theorem copProcess_ledger_mono (env : String → ChunkOutcome) (st : CopState)
    (c : DT × DT) {id : String} (h : id ∈ st.ledger) :
    id ∈ (copProcess env st c).1.ledger := by
  simp only [copProcess]
  split_ifs <;> simp [h]

theorem copRun_ledger_mono (env : String → ChunkOutcome) :
    ∀ chunks st, ∀ id ∈ st.ledger, id ∈ (copRun env st chunks).1.ledger := by
  intro chunks
  induction chunks with
  | nil => intro st id h; exact h
  | cons c rest ih =>
    intro st id h
    cases hp : (copProcess env st c).2 with
    | none =>
      rw [copRun_cons_ok env st c rest hp]
      exact ih _ id (copProcess_ledger_mono env st c h)
    | some err =>
      rw [copRun_cons_err env st c rest err hp]
      exact copProcess_ledger_mono env st c h

theorem copProcess_inv (env : String → ChunkOutcome) (st : CopState)
    (c : DT × DT) (L0 : List String)
    (hl : ∀ id, id ∈ st.ledger → id ∈ L0 ∨ id ∈ st.uploaded)
    (hp : ∀ id, id ∈ st.persisted → id ∈ L0 ∨ id ∈ st.uploaded) :
    (∀ id, id ∈ (copProcess env st c).1.ledger →
      id ∈ L0 ∨ id ∈ (copProcess env st c).1.uploaded) ∧
    (∀ id, id ∈ (copProcess env st c).1.persisted →
      id ∈ L0 ∨ id ∈ (copProcess env st c).1.uploaded) := by
  simp only [copProcess]
  split_ifs with h1 h2 h3 h4 h5
  · exact ⟨hl, hp⟩
  · exact ⟨hl, hp⟩
  · exact ⟨hl, hp⟩
  · exact ⟨hl, hp⟩
  · constructor
    · intro id hid
      rcases List.mem_append.mp hid with hid | hid
      · rcases hl id hid with h' | h'
        · exact Or.inl h'
        · exact Or.inr (List.mem_append_left _ h')
      · exact Or.inr (List.mem_append_right _ hid)
    · intro id hid
      rcases List.mem_append.mp hid with hid | hid
      · rcases hl id hid with h' | h'
        · exact Or.inl h'
        · exact Or.inr (List.mem_append_left _ h')
      · exact Or.inr (List.mem_append_right _ hid)
  · constructor
    · intro id hid
      rcases List.mem_append.mp hid with hid | hid
      · rcases hl id hid with h' | h'
        · exact Or.inl h'
        · exact Or.inr (List.mem_append_left _ h')
      · exact Or.inr (List.mem_append_right _ hid)
    · intro id hid
      rcases hp id hid with h' | h'
      · exact Or.inl h'
      · exact Or.inr (List.mem_append_left _ h')

theorem copRun_inv (env : String → ChunkOutcome) (L0 : List String) :
    ∀ chunks st,
      (∀ id, id ∈ st.ledger → id ∈ L0 ∨ id ∈ st.uploaded) →
      (∀ id, id ∈ st.persisted → id ∈ L0 ∨ id ∈ st.uploaded) →
      (∀ id, id ∈ (copRun env st chunks).1.ledger →
        id ∈ L0 ∨ id ∈ (copRun env st chunks).1.uploaded) ∧
      (∀ id, id ∈ (copRun env st chunks).1.persisted →
        id ∈ L0 ∨ id ∈ (copRun env st chunks).1.uploaded) := by
  intro chunks
  induction chunks with
  | nil => intro st hl hp; exact ⟨hl, hp⟩
  | cons c rest ih =>
    intro st hl hp
    obtain ⟨hl', hp'⟩ := copProcess_inv env st c L0 hl hp
    cases hq : (copProcess env st c).2 with
    | none =>
      rw [copRun_cons_ok env st c rest hq]
      exact ih _ hl' hp'
    | some err =>
      rw [copRun_cons_err env st c rest err hq]
      exact ⟨hl', hp'⟩

theorem copProcess_eq_inv (env : String → ChunkOutcome) (st : CopState)
    (c : DT × DT) (L0 : List String) (hc : copCommitsOk env)
    (hl : st.ledger = L0 ++ st.uploaded) (hp : st.persisted = st.ledger) :
    (copProcess env st c).1.ledger = L0 ++ (copProcess env st c).1.uploaded ∧
    (copProcess env st c).1.persisted = (copProcess env st c).1.ledger := by
  simp only [copProcess]
  split_ifs with h1 h2 h3 h4 h5 <;> simp [hl, hp]
  exact absurd (hc (chunkName c)) h5

theorem copRun_eq_inv (env : String → ChunkOutcome) (L0 : List String)
    (hc : copCommitsOk env) :
    ∀ chunks st, st.ledger = L0 ++ st.uploaded → st.persisted = st.ledger →
      (copRun env st chunks).1.ledger = L0 ++ (copRun env st chunks).1.uploaded ∧
      (copRun env st chunks).1.persisted = (copRun env st chunks).1.ledger := by
  intro chunks
  induction chunks with
  | nil => intro st hl hp; exact ⟨hl, hp⟩
  | cons c rest ih =>
    intro st hl hp
    obtain ⟨hl', hp'⟩ := copProcess_eq_inv env st c L0 hc hl hp
    cases hq : (copProcess env st c).2 with
    | none =>
      rw [copRun_cons_ok env st c rest hq]
      exact ih _ hl' hp'
    | some err =>
      rw [copRun_cons_err env st c rest err hq]
      exact ⟨hl', hp'⟩

theorem copRun_all_skip (env : String → ChunkOutcome) :
    ∀ chunks st, (∀ c ∈ chunks, chunkName c ∈ st.ledger) →
      copRun env st chunks =
        ({ st with skips := st.skips ++ chunks.map chunkName }, none) := by
  intro chunks
  induction chunks with
  | nil => intro st _; simp [copRun_nil]
  | cons c rest ih =>
    intro st hmem
    have hc : chunkName c ∈ st.ledger := hmem c (List.mem_cons_self c rest)
    have hstep := copProcess_skip env st c hc
    rw [copRun_cons_ok2 env st _ c rest hstep]
    rw [ih ({ st with skips := st.skips ++ [chunkName c] })
      (fun c' hc' => hmem c' (List.mem_cons_of_mem c hc'))]
    simp

/-- With an all-success environment and an empty staging directory, one loop
iteration either skips an already-completed chunk or fully processes it. -/
theorem copProcess_ok_cases (env : String → ChunkOutcome) (st : CopState)
    (c : DT × DT) (hok : copEnvOk env) (hst : st.staged = []) :
    (copProcess env st c =
        ({ st with skips := st.skips ++ [chunkName c] }, none) ∧
      chunkName c ∈ st.ledger) ∨
    (copProcess env st c =
        ({ st with attempts := st.attempts ++ [chunkName c]
                   fetchCalls := st.fetchCalls ++ [chunkName c]
                   uploadCalls := st.uploadCalls ++ [chunkName c]
                   uploaded := st.uploaded ++ [chunkName c]
                   ledger := st.ledger ++ [chunkName c]
                   commitCalls := st.commitCalls ++ [chunkName c]
                   persisted := st.ledger ++ [chunkName c] }, none) ∧
      chunkName c ∉ st.ledger) := by
  have he := hok (chunkName c)
  by_cases h : chunkName c ∈ st.ledger
  · exact Or.inl ⟨copProcess_skip env st c h, h⟩
  · refine Or.inr ⟨?_, h⟩
    exact copProcess_success env st c h (by rw [he]) (by rw [he]) (by rw [he])
      (by rw [he]) (by rw [hst]; exact List.not_mem_nil _)

theorem copRun_ok_main (env : String → ChunkOutcome) (hok : copEnvOk env) :
    ∀ chunks st, st.staged = [] → st.persisted = st.ledger →
      (copRun env st chunks).2 = none ∧
      (copRun env st chunks).1.staged = [] ∧
      (copRun env st chunks).1.persisted = (copRun env st chunks).1.ledger ∧
      (∀ c ∈ chunks, chunkName c ∈ (copRun env st chunks).1.ledger) := by
  intro chunks
  induction chunks with
  | nil =>
    intro st hst hpl
    exact ⟨rfl, hst, hpl, fun c hc => absurd hc (List.not_mem_nil c)⟩
  | cons c rest ih =>
    intro st hst hpl
    rcases copProcess_ok_cases env st c hok hst with ⟨hstep, hmem⟩ | ⟨hstep, _⟩
    · rw [copRun_cons_ok2 env st _ c rest hstep]
      obtain ⟨h1, h2, h3, h4⟩ :=
        ih { st with skips := st.skips ++ [chunkName c] } hst hpl
      refine ⟨h1, h2, h3, ?_⟩
      intro c' hc'
      rcases List.mem_cons.mp hc' with rfl | hc'
      · exact copRun_ledger_mono env rest _ (chunkName c') hmem
      · exact h4 c' hc'
    · rw [copRun_cons_ok2 env st _ c rest hstep]
      obtain ⟨h1, h2, h3, h4⟩ := ih
        ({ st with attempts := st.attempts ++ [chunkName c]
                   fetchCalls := st.fetchCalls ++ [chunkName c]
                   uploadCalls := st.uploadCalls ++ [chunkName c]
                   uploaded := st.uploaded ++ [chunkName c]
                   ledger := st.ledger ++ [chunkName c]
                   commitCalls := st.commitCalls ++ [chunkName c]
                   persisted := st.ledger ++ [chunkName c] })
        hst rfl
      refine ⟨h1, h2, h3, ?_⟩
      intro c' hc'
      rcases List.mem_cons.mp hc' with rfl | hc'
      · exact copRun_ledger_mono env rest _ (chunkName c')
          (List.mem_append_right _ (List.mem_singleton.mpr rfl))
      · exact h4 c' hc'

theorem copRun_ok_attempts (env : String → ChunkOutcome) (hok : copEnvOk env) :
    ∀ chunks st, (chunks.map chunkName).Nodup → st.staged = [] →
      (copRun env st chunks).1.attempts =
        st.attempts ++
          (chunks.map chunkName).filter (fun n => decide (n ∉ st.ledger)) := by
  intro chunks
  induction chunks with
  | nil => intro st _ _; simp [copRun_nil]
  | cons c rest ih =>
    intro st hnd hst
    rw [List.map_cons] at hnd ⊢
    obtain ⟨hne, hndrest⟩ := List.nodup_cons.mp hnd
    rcases copProcess_ok_cases env st c hok hst with ⟨hstep, hmem⟩ | ⟨hstep, hnmem⟩
    · rw [copRun_cons_ok2 env st _ c rest hstep]
      rw [ih ({ st with skips := st.skips ++ [chunkName c] }) hndrest hst]
      simp [List.filter_cons, hmem]
    · rw [copRun_cons_ok2 env st _ c rest hstep]
      rw [ih ({ st with attempts := st.attempts ++ [chunkName c]
                        fetchCalls := st.fetchCalls ++ [chunkName c]
                        uploadCalls := st.uploadCalls ++ [chunkName c]
                        uploaded := st.uploaded ++ [chunkName c]
                        ledger := st.ledger ++ [chunkName c]
                        commitCalls := st.commitCalls ++ [chunkName c]
                        persisted := st.ledger ++ [chunkName c] }) hndrest hst]
      have hfc : List.filter
            (fun n => decide (n ∉ st.ledger ++ [chunkName c]))
            (rest.map chunkName) =
          List.filter (fun n => decide (n ∉ st.ledger)) (rest.map chunkName) := by
        apply List.filter_congr
        intro m hm
        have hmne : m ≠ chunkName c := fun hcontra => hne (hcontra ▸ hm)
        simp [List.mem_append, hmne]
      simp only [hfc]
      simp [List.filter_cons, hnmem]

/-- All external calls of the NOAA loop succeed. -/
def noaaEnvOk (env : String → NoaaOutcome) : Prop :=
  ∀ k, env k = ⟨true, true, true, true, true⟩

theorem noaaRun_nil (env : String → NoaaOutcome) (st : NoaaState) :
    noaaRun env st [] = st := rfl

theorem noaaRun_cons (env : String → NoaaOutcome) (st : NoaaState)
    (key : String) (rest : List String) :
    noaaRun env st (key :: rest) = noaaRun env (noaaProcess env st key) rest :=
  rfl

theorem noaaProcess_skip (env : String → NoaaOutcome) (st : NoaaState)
    (key : String) (h : noaaFilename key ∈ st.completed) :
    noaaProcess env st key = { st with skips := st.skips ++ [noaaFilename key] } := by
  simp [noaaProcess, h]

theorem noaaProcess_attempts_go (env : String → NoaaOutcome) (st : NoaaState)
    (key : String) (h : noaaFilename key ∉ st.completed) :
    (noaaProcess env st key).attempts = st.attempts ++ [noaaFilename key] := by
  simp only [noaaProcess, if_neg h]
  cases hg : (env key).getOk <;>
    cases ho : (env key).openOk <;>
      cases hidx : (splitSlash key)[4]? <;>
        cases hs : (env key).saveOk <;>
          cases hu : (env key).uploadOk <;>
            cases hc : (env key).commitOk <;>
              simp [hg, ho, hidx, hs, hu, hc]

/-- The fields relevant to the checkpoint invariant change in only two ways
per iteration: not at all (skip or any failure before the `completed_files`
update), or by appending the filename to both `completed_files` and the
uploaded set, with the persisted checkpoint either rewritten to the new set
(successful write) or left alone (caught write failure). -/
theorem noaaProcess_facts (env : String → NoaaOutcome) (st : NoaaState)
    (key : String) :
    ((noaaProcess env st key).completed = st.completed ∧
     (noaaProcess env st key).uploaded = st.uploaded ∧
     (noaaProcess env st key).persisted = st.persisted) ∨
    (noaaFilename key ∉ st.completed ∧
     (noaaProcess env st key).completed = st.completed ++ [noaaFilename key] ∧
     (noaaProcess env st key).uploaded = st.uploaded ++ [noaaFilename key] ∧
     ((noaaProcess env st key).persisted = st.persisted ∨
      (noaaProcess env st key).persisted =
        st.completed ++ [noaaFilename key])) := by
  by_cases h : noaaFilename key ∈ st.completed
  · rw [noaaProcess_skip env st key h]
    exact Or.inl ⟨rfl, rfl, rfl⟩
  · simp only [noaaProcess, if_neg h]
    cases hg : (env key).getOk <;>
      cases ho : (env key).openOk <;>
        cases hidx : (splitSlash key)[4]? <;>
          cases hs : (env key).saveOk <;>
            cases hu : (env key).uploadOk <;>
              cases hc : (env key).commitOk <;>
                simp [hg, ho, hidx, hs, hu, hc, h]

theorem noaaProcess_completed_mono (env : String → NoaaOutcome)
    (st : NoaaState) (key : String) {id : String} (h : id ∈ st.completed) :
    id ∈ (noaaProcess env st key).completed := by
  rcases noaaProcess_facts env st key with ⟨hc, _, _⟩ | ⟨_, hc, _, _⟩ <;>
    rw [hc]
  · exact h
  · exact List.mem_append_left _ h

theorem noaaRun_completed_mono (env : String → NoaaOutcome) :
    ∀ keys st, ∀ id ∈ st.completed, id ∈ (noaaRun env st keys).completed := by
  intro keys
  induction keys with
  | nil => intro st id h; exact h
  | cons key rest ih =>
    intro st id h
    rw [noaaRun_cons]
    exact ih _ id (noaaProcess_completed_mono env st key h)

theorem noaaRun_inv (env : String → NoaaOutcome) (L0 : List String) :
    ∀ keys st,
      (∀ id, id ∈ st.completed → id ∈ L0 ∨ id ∈ st.uploaded) →
      (∀ id, id ∈ st.persisted → id ∈ L0 ∨ id ∈ st.uploaded) →
      (∀ id, id ∈ (noaaRun env st keys).completed →
        id ∈ L0 ∨ id ∈ (noaaRun env st keys).uploaded) ∧
      (∀ id, id ∈ (noaaRun env st keys).persisted →
        id ∈ L0 ∨ id ∈ (noaaRun env st keys).uploaded) := by
  intro keys
  induction keys with
  | nil => intro st hc hp; exact ⟨hc, hp⟩
  | cons key rest ih =>
    intro st hc hp
    rw [noaaRun_cons]
    rcases noaaProcess_facts env st key with ⟨h1, h2, h3⟩ | ⟨_, h1, h2, h3⟩
    · exact ih _ (by rw [h1, h2]; exact hc) (by rw [h3, h2]; exact hp)
    · apply ih
      · rw [h1, h2]
        intro id hid
        rcases List.mem_append.mp hid with hid | hid
        · rcases hc id hid with h' | h'
          · exact Or.inl h'
          · exact Or.inr (List.mem_append_left _ h')
        · exact Or.inr (List.mem_append_right _ hid)
      · rw [h2]
        rcases h3 with h3 | h3 <;> rw [h3] <;> intro id hid
        · rcases hp id hid with h' | h'
          · exact Or.inl h'
          · exact Or.inr (List.mem_append_left _ h')
        · rcases List.mem_append.mp hid with hid | hid
          · rcases hc id hid with h' | h'
            · exact Or.inl h'
            · exact Or.inr (List.mem_append_left _ h')
          · exact Or.inr (List.mem_append_right _ hid)

theorem noaaRun_all_skip (env : String → NoaaOutcome) :
    ∀ keys st, (∀ k ∈ keys, noaaFilename k ∈ st.completed) →
      noaaRun env st keys =
        { st with skips := st.skips ++ keys.map noaaFilename } := by
  intro keys
  induction keys with
  | nil => intro st _; simp [noaaRun_nil]
  | cons key rest ih =>
    intro st hmem
    rw [noaaRun_cons,
      noaaProcess_skip env st key (hmem key (List.mem_cons_self key rest))]
    rw [ih ({ st with skips := st.skips ++ [noaaFilename key] })
      (fun k hk => hmem k (List.mem_cons_of_mem key hk))]
    simp

theorem noaaRun_attempts (env : String → NoaaOutcome) :
    ∀ keys st, (keys.map noaaFilename).Nodup →
      (noaaRun env st keys).attempts =
        st.attempts ++
          (keys.map noaaFilename).filter (fun n => decide (n ∉ st.completed)) := by
  intro keys
  induction keys with
  | nil => intro st _; simp [noaaRun_nil]
  | cons key rest ih =>
    intro st hnd
    rw [List.map_cons] at hnd ⊢
    obtain ⟨hne, hndrest⟩ := List.nodup_cons.mp hnd
    rw [noaaRun_cons]
    by_cases h : noaaFilename key ∈ st.completed
    · rw [noaaProcess_skip env st key h]
      rw [ih ({ st with skips := st.skips ++ [noaaFilename key] }) hndrest]
      simp [List.filter_cons, h]
    · rw [ih (noaaProcess env st key) hndrest]
      rw [noaaProcess_attempts_go env st key h]
      have hfc : List.filter
            (fun n => decide (n ∉ (noaaProcess env st key).completed))
            (rest.map noaaFilename) =
          List.filter (fun n => decide (n ∉ st.completed))
            (rest.map noaaFilename) := by
        apply List.filter_congr
        intro m hm
        have hmne : m ≠ noaaFilename key := fun hcontra => hne (hcontra ▸ hm)
        rcases noaaProcess_facts env st key with ⟨hc, _, _⟩ | ⟨_, hc, _, _⟩ <;>
          rw [hc]
        simp [List.mem_append, hmne]
      rw [hfc]
      simp [List.filter_cons, h]

theorem noaaProcess_success_step (env : String → NoaaOutcome) (st : NoaaState)
    (key : String) (h : noaaFilename key ∉ st.completed)
    (he : env key = ⟨true, true, true, true, true⟩)
    (hidx : ((splitSlash key)[4]?).isSome = true)
    (hx : pyReplace (noaaFilename key) ".grib2" ".nc" ∉ st.staged) :
    noaaProcess env st key =
      { st with attempts := st.attempts ++ [noaaFilename key]
                getCalls := st.getCalls ++ [key]
                uploadCalls := st.uploadCalls ++ [key]
                uploaded := st.uploaded ++ [noaaFilename key]
                completed := st.completed ++ [noaaFilename key]
                persisted := st.completed ++ [noaaFilename key] } := by
  obtain ⟨d, hd⟩ := Option.isSome_iff_exists.mp hidx
  simp [noaaProcess, h, he, hd, List.erase_append_right _ hx]

theorem noaaRun_ok_main (env : String → NoaaOutcome) (hok : noaaEnvOk env) :
    ∀ keys st, (∀ k ∈ keys, ((splitSlash k)[4]?).isSome = true) →
      st.staged = [] → st.persisted = st.completed →
      (noaaRun env st keys).staged = [] ∧
      (noaaRun env st keys).persisted = (noaaRun env st keys).completed ∧
      ∀ k ∈ keys, noaaFilename k ∈ (noaaRun env st keys).completed := by
  intro keys
  induction keys with
  | nil =>
    intro st _ hst hpc
    exact ⟨hst, hpc, fun k hk => absurd hk (List.not_mem_nil k)⟩
  | cons key rest ih =>
    intro st hidx hst hpc
    rw [noaaRun_cons]
    by_cases h : noaaFilename key ∈ st.completed
    · rw [noaaProcess_skip env st key h]
      obtain ⟨h1, h2, h3⟩ := ih ({ st with skips := st.skips ++ [noaaFilename key] })
        (fun k hk => hidx k (List.mem_cons_of_mem key hk)) hst hpc
      refine ⟨h1, h2, ?_⟩
      intro k hk
      rcases List.mem_cons.mp hk with rfl | hk
      · exact noaaRun_completed_mono env rest _ (noaaFilename k) h
      · exact h3 k hk
    · rw [noaaProcess_success_step env st key h (hok key)
        (hidx key (List.mem_cons_self key rest)) (by rw [hst]; exact List.not_mem_nil _)]
      obtain ⟨h1, h2, h3⟩ := ih
        ({ st with attempts := st.attempts ++ [noaaFilename key]
                   getCalls := st.getCalls ++ [key]
                   uploadCalls := st.uploadCalls ++ [key]
                   uploaded := st.uploaded ++ [noaaFilename key]
                   completed := st.completed ++ [noaaFilename key]
                   persisted := st.completed ++ [noaaFilename key] })
        (fun k hk => hidx k (List.mem_cons_of_mem key hk)) hst rfl
      refine ⟨h1, h2, ?_⟩
      intro k hk
      rcases List.mem_cons.mp hk with rfl | hk
      · exact noaaRun_completed_mono env rest _ (noaaFilename k)
          (List.mem_append_right _ (List.mem_singleton.mpr rfl))
      · exact h3 k hk

/-- A chunk-fatal outcome for the Copernicus loop: one of the retried
fetch/materialize/upload steps fails (its retries exhausted). -/
def copFatal (o : ChunkOutcome) : Bool := !(o.fetchOk && o.saveOk && o.uploadOk)

/-- A chunk-fatal outcome for the NOAA loop: one of get/open/save/upload
fails. -/
def noaaFatal (o : NoaaOutcome) : Bool :=
  !(o.getOk && o.openOk && o.saveOk && o.uploadOk)

theorem copProcess_fatal (env : String → ChunkOutcome) (st : CopState)
    (c : DT × DT) (h : chunkName c ∉ st.ledger)
    (hf : copFatal (env (chunkName c)) = true) :
    (copProcess env st c).2 ≠ none ∧
    (copProcess env st c).1.persisted = st.persisted ∧
    (copProcess env st c).1.ledger = st.ledger := by
  unfold copFatal at hf
  simp only [copProcess, if_neg h]
  cases hfe : (env (chunkName c)).fetchOk <;>
    cases hsa : (env (chunkName c)).saveOk <;>
      cases hup : (env (chunkName c)).uploadOk <;>
        simp [hfe, hsa, hup] at hf ⊢

theorem noaaProcess_fatal (env : String → NoaaOutcome) (st : NoaaState)
    (key : String) (h : noaaFilename key ∉ st.completed)
    (hf : noaaFatal (env key) = true) :
    (noaaProcess env st key).errLogs = st.errLogs ++ [noaaFilename key] ∧
    (noaaProcess env st key).completed = st.completed ∧
    (noaaProcess env st key).persisted = st.persisted := by
  unfold noaaFatal at hf
  simp only [noaaProcess, if_neg h]
  cases hg : (env key).getOk <;>
    cases ho : (env key).openOk <;>
      cases hidx : (splitSlash key)[4]? <;>
        cases hs : (env key).saveOk <;>
          cases hu : (env key).uploadOk <;>
            simp [hg, ho, hidx, hs, hu] at hf ⊢

theorem noaaProcess_uploadFail (env : String → NoaaOutcome) (st : NoaaState)
    (key : String) (h : noaaFilename key ∉ st.completed)
    (hg : (env key).getOk = true) (ho : (env key).openOk = true)
    (hidx : ((splitSlash key)[4]?).isSome = true)
    (hs : (env key).saveOk = true) (hu : (env key).uploadOk = false) :
    noaaProcess env st key =
      { st with attempts := st.attempts ++ [noaaFilename key]
                getCalls := st.getCalls ++ [key]
                staged := st.staged ++
                  [pyReplace (noaaFilename key) ".grib2" ".nc"]
                uploadCalls := st.uploadCalls ++ [key]
                errLogs := st.errLogs ++ [noaaFilename key] } := by
  obtain ⟨d, hd⟩ := Option.isSome_iff_exists.mp hidx
  simp [noaaProcess, h, hg, ho, hd, hs, hu]

theorem noaaProcess_commitFail (env : String → NoaaOutcome) (st : NoaaState)
    (key : String) (h : noaaFilename key ∉ st.completed)
    (hg : (env key).getOk = true) (ho : (env key).openOk = true)
    (hidx : ((splitSlash key)[4]?).isSome = true)
    (hs : (env key).saveOk = true) (hu : (env key).uploadOk = true)
    (hc : (env key).commitOk = false)
    (hx : pyReplace (noaaFilename key) ".grib2" ".nc" ∉ st.staged) :
    noaaProcess env st key =
      { st with attempts := st.attempts ++ [noaaFilename key]
                getCalls := st.getCalls ++ [key]
                uploadCalls := st.uploadCalls ++ [key]
                uploaded := st.uploaded ++ [noaaFilename key]
                completed := st.completed ++ [noaaFilename key]
                errLogs := st.errLogs ++ [noaaFilename key] } := by
  obtain ⟨d, hd⟩ := Option.isSome_iff_exists.mp hidx
  simp [noaaProcess, h, hg, ho, hd, hs, hu, hc, List.erase_append_right _ hx]

/-- Environment in which every external call succeeds (Copernicus). -/
def envAllOk : String → ChunkOutcome := fun _ => ⟨true, true, true, true⟩

/-- Environment in which every external call succeeds (NOAA). -/
def noaaAllOk : String → NoaaOutcome := fun _ => ⟨true, true, true, true, true⟩

/-- The two chunks of the domain 2020-01-01 to 2020-03-01. -/
def demoChunks : List (DT × DT) :=
  generate_chunks ⟨2020, 1, 1, 0⟩ ⟨2020, 3, 1, 0⟩

/-- Two sample GEFS reforecast object keys. -/
def demoKeys : List String :=
  ["GEFSv12/reforecast/2019/20190101/f1.grib2",
   "GEFSv12/reforecast/2019/20190102/f2.grib2"]

/-- C1: a chunk id appears in the persisted completion ledger iff the chunk
was fully transferred and uploaded (or was already recorded when the run
started): the persisted ledger only ever gains ids of chunks whose upload
succeeded in this run, and, when the ledger writes themselves succeed, it
contains exactly the initially recorded ids plus the ids uploaded in this
run — partial work never appears, also across restarts, because the run can
be re-entered with any previously persisted ledger `L0`. -/
theorem C1_ledger_iff (env : String → ChunkOutcome) (chunks : List (DT × DT))
    (L0 : List String) (id : String) :
    (id ∈ (copRun env (copInit L0) chunks).1.persisted →
      id ∈ L0 ∨ id ∈ (copRun env (copInit L0) chunks).1.uploaded) ∧
    (copCommitsOk env →
      (id ∈ (copRun env (copInit L0) chunks).1.persisted ↔
        id ∈ L0 ∨ id ∈ (copRun env (copInit L0) chunks).1.uploaded)) := by
  constructor
  · intro hid
    exact (copRun_inv env L0 chunks (copInit L0)
      (fun id h => Or.inl h) (fun id h => Or.inl h)).2 id hid
  · intro hc
    obtain ⟨hl, hp⟩ := copRun_eq_inv env L0 hc chunks (copInit L0)
      (by simp [copInit]) rfl
    rw [hp, hl]
    simp [List.mem_append]

theorem C1_ledger_iff_witness :
    "20200101_20200201" ∈ (copRun envAllOk (copInit []) demoChunks).1.persisted ↔
      ("20200101_20200201" ∈ ([] : List String) ∨
        "20200101_20200201" ∈
          (copRun envAllOk (copInit []) demoChunks).1.uploaded) :=
  (C1_ledger_iff envAllOk demoChunks [] "20200101_20200201").2 (fun _ => rfl)

/-- C3: for a valid domain with `start < end`, the yielded intervals of
`generate_chunks` exactly partition the half-open interval from `start` to
`end` — the first interval starts at `start`, consecutive intervals share
their endpoint (no gaps, no overlaps), every interval is nonempty, the last
interval ends exactly at `end` (truncation), and every interval spans at
most one calendar-month step with the day of month capped at 28. -/
theorem C3_partition (s e : DT) (hs : s.Valid) (he : e.Valid)
    (hlt : s.ltb e = true) :
    chainFromB s e (generate_chunks s e) = true ∧
    withinMonthB (generate_chunks s e) = true := by
  constructor
  · exact generateChunksF_chain e (chunkFuel s e) s hs.2.1 (le_refl _) hlt
  · exact generateChunksF_withinMonth e (chunkFuel s e) s

theorem C3_partition_witness :
    chainFromB ⟨2019, 11, 5, 3⟩ ⟨2020, 2, 10, 0⟩
        (generate_chunks ⟨2019, 11, 5, 3⟩ ⟨2020, 2, 10, 0⟩) = true ∧
    withinMonthB (generate_chunks ⟨2019, 11, 5, 3⟩ ⟨2020, 2, 10, 0⟩) = true :=
  C3_partition ⟨2019, 11, 5, 3⟩ ⟨2020, 2, 10, 0⟩ (by decide) (by decide)
    (by decide)

/-- C4: for `max_attempts ≥ 1`, if the operation fails on attempts `1..k`
with `k < max_attempts` and succeeds on attempt `k+1`, `retry` returns the
success value, prints exactly the `k` failures, sleeps the fixed delay
exactly `k` times, and invokes the operation on attempts `1..k+1`; if the
operation always fails, `retry` invokes it exactly `max_attempts` times,
sleeps the fixed delay exactly `max_attempts - 1` times (between
consecutive attempts only), and re-raises the last failure unchanged. -/
theorem C4_retry {E A : Type} (op : Nat → Except E A) (maxA delay k : Nat)
    (v : A) (f : Nat → E) :
    (k + 1 ≤ maxA → (∀ i ∈ List.range' 1 k, op i = .error (f i)) →
      op (k + 1) = .ok v →
      retryRun op maxA delay =
        ⟨some (.ok v), (List.range' 1 k).map f, List.replicate k delay,
          List.range' 1 (k + 1)⟩) ∧
    (1 ≤ maxA → (∀ i, op i = .error (f i)) →
      retryRun op maxA delay =
        ⟨some (.error (f maxA)), (List.range' 1 maxA).map f,
          List.replicate (maxA - 1) delay, List.range' 1 maxA⟩) := by
  constructor
  · intro hk hfail hok
    unfold retryRun
    apply retryGo_ok op maxA delay f v k 1 maxA (by omega)
    · intro i h1 h2
      apply hfail
      exact List.mem_range'.mpr ⟨i - 1, by omega, by omega⟩
    · rw [show (1 : Nat) + k = k + 1 from by omega]
      exact hok
    · omega
  · intro hmax hall
    unfold retryRun
    exact retryGo_fail op maxA delay f hall maxA 1 hmax (by omega)

/-- The operation used to witness C4: fails on the first two attempts and
returns 42 afterwards. -/
def opC4 : Nat → Except Nat Nat := fun i => if i ≤ 2 then .error i else .ok 42

theorem C4_retry_witness :
    retryRun opC4 5 7 =
      ⟨some (.ok 42), (List.range' 1 2).map (fun i => i),
        List.replicate 2 7, List.range' 1 3⟩ :=
  (C4_retry opC4 5 7 2 42 (fun i => i)).1 (by omega) (by decide) (by decide)

/-- C8: for the domain 2020-01-01 to 2020-03-01 with the one-month
granularity, the planner yields exactly the two intervals
2020-01-01..2020-02-01 and 2020-02-01..2020-03-01, and an all-success run
over them from an empty ledger leaves the persisted ledger equal to
`["20200101_20200201", "20200201_20200301"]`, zero staging files, and a
clean exit. -/
theorem C8_end_to_end :
    generate_chunks ⟨2020, 1, 1, 0⟩ ⟨2020, 3, 1, 0⟩ =
      [(⟨2020, 1, 1, 0⟩, ⟨2020, 2, 1, 0⟩), (⟨2020, 2, 1, 0⟩, ⟨2020, 3, 1, 0⟩)] ∧
    (copRun envAllOk (copInit []) demoChunks).1.persisted =
      ["20200101_20200201", "20200201_20200301"] ∧
    (copRun envAllOk (copInit []) demoChunks).1.staged = [] ∧
    (copRun envAllOk (copInit []) demoChunks).2 = none := by
  decide

/-- C9: for any valid pair of datetimes, the chunk generator terminates (its
value is independent of any fuel at least `chunkFuel`, the bound at which
the loop guard, not the fuel, ends the recursion); when `start < end` it
yields a strictly increasing chain of nonempty adjacent intervals ending at
`end`; when `start ≥ end` it yields nothing; and the December step rolls the
year over to January of the next year. -/
theorem C9_generator (s e : DT) (hs : s.Valid) (he : e.Valid) :
    (∀ fuel, chunkFuel s e ≤ fuel →
      generateChunksF fuel s e = generate_chunks s e) ∧
    (s.ltb e = true → chainFromB s e (generate_chunks s e) = true) ∧
    (s.ltb e = false → generate_chunks s e = []) ∧
    (∀ y d h, nextChunkRaw ⟨y, 12, d, h⟩ = ⟨y + 1, 1, min d 28, h⟩) := by
  refine ⟨?_, ?_, ?_, ?_⟩
  · intro fuel hf
    exact generateChunksF_norm e fuel s hs.2.1 hf
  · intro h
    exact generateChunksF_chain e (chunkFuel s e) s hs.2.1 (le_refl _) h
  · intro h
    exact generateChunksF_nil h _
  · exact nextChunkRaw_december

theorem C9_generator_witness :
    (generateChunksF (chunkFuel ⟨2020, 12, 31, 23⟩ ⟨2021, 2, 5, 0⟩ + 7)
        ⟨2020, 12, 31, 23⟩ ⟨2021, 2, 5, 0⟩ =
      generate_chunks ⟨2020, 12, 31, 23⟩ ⟨2021, 2, 5, 0⟩) ∧
    chainFromB ⟨2020, 12, 31, 23⟩ ⟨2021, 2, 5, 0⟩
      (generate_chunks ⟨2020, 12, 31, 23⟩ ⟨2021, 2, 5, 0⟩) = true :=
  ⟨(C9_generator ⟨2020, 12, 31, 23⟩ ⟨2021, 2, 5, 0⟩ (by decide) (by decide)).1
      _ (by decide),
   (C9_generator ⟨2020, 12, 31, 23⟩ ⟨2021, 2, 5, 0⟩ (by decide) (by decide)).2.1
      (by decide)⟩

/-- C10: the NOAA planner issues a single unpaginated listing call, so it
plans at most the first page (1000 keys) of matching objects; any matching
key outside that first page is never planned. -/
theorem C10_single_page (allKeys : List String) :
    (gribFiles allKeys).length ≤ 1000 ∧
    (∀ k ∈ gribFiles allKeys, k ∈ allKeys.take 1000) ∧
    (∀ k, k ∉ allKeys.take 1000 → k ∉ gribFiles allKeys) := by
  refine ⟨?_, ?_, ?_⟩
  · calc (gribFiles allKeys).length ≤ (s3ListFirstPage allKeys).length :=
        List.length_filter_le _ _
      _ ≤ 1000 := by simp [s3ListFirstPage]
  · intro k hk
    exact List.mem_of_mem_filter hk
  · intro k hk hc
    exact hk (List.mem_of_mem_filter hc)

theorem C10_single_page_witness :
    (gribFiles demoKeys).length ≤ 1000 ∧
    "GEFSv12/reforecast/2019/20190101/f1.grib2" ∈ demoKeys.take 1000 :=
  ⟨(C10_single_page demoKeys).1,
   (C10_single_page demoKeys).2.1 _ (by decide)⟩

/-- C2: rerunning either downloader over the same domain with the ledger of
a fully successful first run skips every chunk with a log line and performs
no fetch or upload calls (the final state equals the initial one except for
the skip log, for any environment of the second run); and a fresh run over
a ledger holding some of the planner chunk ids attempts exactly the
remaining ids, in the planner original order. -/
theorem C2_idempotence (env1 env2 env : String → ChunkOutcome)
    (envN1 envN2 envN : String → NoaaOutcome)
    (chunks : List (DT × DT)) (keys : List String) (L0 K0 : List String)
    (h1 : copEnvOk env1) (hok : copEnvOk env)
    (hnd : (chunks.map chunkName).Nodup)
    (hN1 : noaaEnvOk envN1)
    (hkidx : ∀ k ∈ keys, ((splitSlash k)[4]?).isSome = true)
    (hknd : (keys.map noaaFilename).Nodup) :
    (copRun env2 (copInit (copRun env1 (copInit []) chunks).1.persisted) chunks =
      ({ copInit (copRun env1 (copInit []) chunks).1.persisted with
          skips := chunks.map chunkName }, none)) ∧
    ((copRun env (copInit L0) chunks).1.attempts =
      (chunks.map chunkName).filter (fun n => decide (n ∉ L0))) ∧
    ((copRun env (copInit L0) chunks).2 = none) ∧
    (noaaRun envN2 (noaaInit (noaaRun envN1 (noaaInit []) keys).persisted) keys =
      { noaaInit (noaaRun envN1 (noaaInit []) keys).persisted with
          skips := keys.map noaaFilename }) ∧
    ((noaaRun envN (noaaInit K0) keys).attempts =
      (keys.map noaaFilename).filter (fun n => decide (n ∉ K0))) := by
  refine ⟨?_, ?_, ?_, ?_, ?_⟩
  · obtain ⟨_, _, h3, h4⟩ := copRun_ok_main env1 h1 chunks (copInit []) rfl rfl
    have hmem : ∀ c ∈ chunks, chunkName c ∈
        (copInit (copRun env1 (copInit []) chunks).1.persisted).ledger := by
      intro c hc
      show chunkName c ∈ (copRun env1 (copInit []) chunks).1.persisted
      rw [h3]
      exact h4 c hc
    exact copRun_all_skip env2 chunks _ hmem
  · exact copRun_ok_attempts env hok chunks (copInit L0) hnd rfl
  · exact (copRun_ok_main env hok chunks (copInit L0) rfl rfl).1
  · obtain ⟨_, h2, h3⟩ := noaaRun_ok_main envN1 hN1 keys (noaaInit []) hkidx rfl rfl
    have hmem : ∀ k ∈ keys, noaaFilename k ∈
        (noaaInit (noaaRun envN1 (noaaInit []) keys).persisted).completed := by
      intro k hk
      show noaaFilename k ∈ (noaaRun envN1 (noaaInit []) keys).persisted
      rw [h2]
      exact h3 k hk
    exact noaaRun_all_skip envN2 keys _ hmem
  · exact noaaRun_attempts envN keys (noaaInit K0) hknd

theorem C2_idempotence_witness :
    ((copRun envAllOk (copInit ["20200101_20200201"]) demoChunks).1.attempts =
      (demoChunks.map chunkName).filter
        (fun n => decide (n ∉ ["20200101_20200201"]))) ∧
    ((noaaRun noaaAllOk (noaaInit []) demoKeys).attempts =
      (demoKeys.map noaaFilename).filter
        (fun n => decide (n ∉ ([] : List String)))) :=
  ⟨(C2_idempotence envAllOk envAllOk envAllOk noaaAllOk noaaAllOk noaaAllOk
      demoChunks demoKeys ["20200101_20200201"] []
      (fun _ => rfl) (fun _ => rfl) (by decide) (fun _ => rfl) (by decide)
      (by decide)).2.1,
   (C2_idempotence envAllOk envAllOk envAllOk noaaAllOk noaaAllOk noaaAllOk
      demoChunks demoKeys ["20200101_20200201"] []
      (fun _ => rfl) (fun _ => rfl) (by decide) (fun _ => rfl) (by decide)
      (by decide)).2.2.2.2⟩

/-- First chunk of the demo domain. -/
def chunkJan : DT × DT := (⟨2020, 1, 1, 0⟩, ⟨2020, 2, 1, 0⟩)

/-- Second chunk of the demo domain. -/
def chunkFeb : DT × DT := (⟨2020, 2, 1, 0⟩, ⟨2020, 3, 1, 0⟩)

/-- Environment whose fetch fails (after retries) on the first demo chunk. -/
def envC5 : String → ChunkOutcome := fun n =>
  if n = "20200101_20200201" then ⟨false, true, true, true⟩
  else ⟨true, true, true, true⟩

/-- NOAA environment whose `get_object` fails on the first demo key. -/
def envC5n : String → NoaaOutcome := fun k =>
  if k = "GEFSv12/reforecast/2019/20190101/f1.grib2" then
    ⟨false, true, true, true, true⟩
  else ⟨true, true, true, true, true⟩

/-- C5 is refuted on the Copernicus downloader: with a chunk-fatal fetch
failure on the first chunk, the uncaught error aborts the whole run and the
second chunk is never attempted, contradicting that both downloaders
continue to the next chunk. -/
theorem C5_counterexample :
    (copRun envC5 (copInit []) demoChunks).2 =
      some (.fetchFail "20200101_20200201") ∧
    "20200201_20200301" ∉ (copRun envC5 (copInit []) demoChunks).1.attempts ∧
    "20200201_20200301" ∉ (copRun envC5 (copInit []) demoChunks).1.uploaded := by
  decide

/-- C5 (amended): on a chunk-fatal failure neither downloader commits the
chunk to its persisted ledger; the NOAA loop prints an error line naming the
file and continues with the next key, while the Copernicus loop lets the
exception escape, aborting the run with the remaining chunks unprocessed. -/
theorem C5_amended (env : String → ChunkOutcome) (envN : String → NoaaOutcome)
    (st : CopState) (stN : NoaaState) (c : DT × DT) (rest : List (DT × DT))
    (key : String) (restK : List String)
    (hcm : chunkName c ∉ st.ledger) (hcf : copFatal (env (chunkName c)) = true)
    (hnm : noaaFilename key ∉ stN.completed)
    (hnf : noaaFatal (envN key) = true) :
    ((copProcess env st c).2 ≠ none ∧
     (copProcess env st c).1.persisted = st.persisted ∧
     (copProcess env st c).1.ledger = st.ledger ∧
     (∀ err, (copProcess env st c).2 = some err →
       copRun env st (c :: rest) = ((copProcess env st c).1, some err))) ∧
    ((noaaProcess envN stN key).errLogs = stN.errLogs ++ [noaaFilename key] ∧
     (noaaProcess envN stN key).completed = stN.completed ∧
     (noaaProcess envN stN key).persisted = stN.persisted ∧
     noaaRun envN stN (key :: restK) =
       noaaRun envN (noaaProcess envN stN key) restK) := by
  obtain ⟨h1, h2, h3⟩ := copProcess_fatal env st c hcm hcf
  obtain ⟨n1, n2, n3⟩ := noaaProcess_fatal envN stN key hnm hnf
  exact ⟨⟨h1, h2, h3, fun err herr => copRun_cons_err env st c rest err herr⟩,
    ⟨n1, n2, n3, noaaRun_cons envN stN key restK⟩⟩

theorem C5_amended_witness :
    (copProcess envC5 (copInit []) chunkJan).1.persisted =
      (copInit ([] : List String)).persisted ∧
    (noaaProcess envC5n (noaaInit [])
        "GEFSv12/reforecast/2019/20190101/f1.grib2").errLogs =
      (noaaInit ([] : List String)).errLogs ++
        [noaaFilename "GEFSv12/reforecast/2019/20190101/f1.grib2"] :=
  ⟨(C5_amended envC5 envC5n (copInit []) (noaaInit []) chunkJan [chunkFeb]
      "GEFSv12/reforecast/2019/20190101/f1.grib2" []
      (by decide) (by decide) (by decide) (by decide)).1.2.1,
   (C5_amended envC5 envC5n (copInit []) (noaaInit []) chunkJan [chunkFeb]
      "GEFSv12/reforecast/2019/20190101/f1.grib2" []
      (by decide) (by decide) (by decide) (by decide)).2.1⟩

/-- Environment whose upload fails (after retries) on the first demo chunk. -/
def envC6 : String → ChunkOutcome := fun n =>
  if n = "20200101_20200201" then ⟨true, true, false, true⟩
  else ⟨true, true, true, true⟩

/-- C6 is refuted: after an exhausted upload failure the staging file of the
chunk remains on disk, because `os.remove(temp_file)` is only reached on the
success path; the ledger part of the claim does hold (the id is absent). -/
theorem C6_counterexample :
    (copRun envC6 (copInit []) demoChunks).1.staged =
      ["20200101_20200201.nc"] ∧
    "20200101_20200201" ∉ (copRun envC6 (copInit []) demoChunks).1.persisted := by
  decide

/-- C6 (amended): after an exhausted upload failure the ledger does not gain
the chunk id, but the StagingArtifact remains on disk in both downloaders;
the staging file is removed only on the success path. -/
theorem C6_amended (env : String → ChunkOutcome) (envN : String → NoaaOutcome)
    (st : CopState) (stN : NoaaState) (c : DT × DT) (key : String)
    (h : chunkName c ∉ st.ledger)
    (hf : (env (chunkName c)).fetchOk = true)
    (hs : (env (chunkName c)).saveOk = true) :
    ((env (chunkName c)).uploadOk = false →
      (copProcess env st c).1.staged = st.staged ++ [chunkName c ++ ".nc"] ∧
      (copProcess env st c).1.persisted = st.persisted ∧
      (copProcess env st c).1.ledger = st.ledger ∧
      (copProcess env st c).2 = some (.uploadFail (chunkName c))) ∧
    ((env (chunkName c)).uploadOk = true → (env (chunkName c)).commitOk = true →
      chunkName c ++ ".nc" ∉ st.staged →
      (copProcess env st c).1.staged = st.staged) ∧
    (noaaFilename key ∉ stN.completed → (envN key).getOk = true →
      (envN key).openOk = true → ((splitSlash key)[4]?).isSome = true →
      (envN key).saveOk = true → (envN key).uploadOk = false →
      (noaaProcess envN stN key).staged =
        stN.staged ++ [pyReplace (noaaFilename key) ".grib2" ".nc"] ∧
      (noaaProcess envN stN key).completed = stN.completed ∧
      (noaaProcess envN stN key).persisted = stN.persisted) := by
  refine ⟨?_, ?_, ?_⟩
  · intro hu
    rw [copProcess_uploadFail env st c h hf hs hu]
    exact ⟨rfl, rfl, rfl, rfl⟩
  · intro hu hc hx
    rw [copProcess_success env st c h hf hs hu hc hx]
  · intro hnm hg ho hidx hsn hun
    rw [noaaProcess_uploadFail envN stN key hnm hg ho hidx hsn hun]
    exact ⟨rfl, rfl, rfl⟩

theorem C6_amended_witness :
    (copProcess envC6 (copInit []) chunkJan).1.staged =
      (copInit ([] : List String)).staged ++ [chunkName chunkJan ++ ".nc"] ∧
    (copProcess envC6 (copInit []) chunkJan).2 =
      some (.uploadFail (chunkName chunkJan)) :=
  ⟨((C6_amended envC6 envC5n (copInit []) (noaaInit []) chunkJan
      "GEFSv12/reforecast/2019/20190101/f1.grib2"
      (by decide) (by decide) (by decide)).1 (by decide)).1,
   ((C6_amended envC6 envC5n (copInit []) (noaaInit []) chunkJan
      "GEFSv12/reforecast/2019/20190101/f1.grib2"
      (by decide) (by decide) (by decide)).1 (by decide)).2.2.2⟩

/-- NOAA environment whose checkpoint write fails on the first demo key. -/
def envC7 : String → NoaaOutcome := fun k =>
  if k = "GEFSv12/reforecast/2019/20190101/f1.grib2" then
    ⟨true, true, true, true, false⟩
  else ⟨true, true, true, true, true⟩

/-- C7 is refuted on the NOAA downloader: a checkpoint-write failure is
caught by the per-file handler, printed, and the run continues — the second
file is still attempted and processed (no halt, no re-raise), and the first
file id is even persisted later by the second file successful write. -/
theorem C7_counterexample :
    (noaaRun envC7 (noaaInit []) demoKeys).attempts =
      ["f1.grib2", "f2.grib2"] ∧
    (noaaRun envC7 (noaaInit []) demoKeys).errLogs = ["f1.grib2"] ∧
    (noaaRun envC7 (noaaInit []) demoKeys).persisted =
      ["f1.grib2", "f2.grib2"] := by
  decide

/-- C7 (amended): in the Copernicus downloader a `save_log` failure is fatal
as claimed — the single write attempt is not retried, the persisted ledger
is unchanged, and the exception aborts the run; in the NOAA downloader,
however, a checkpoint-write failure is caught and logged and the run
continues with the next key, the persisted checkpoint unchanged for now
(the already-uploaded id reaches it only through a later successful
write). -/
theorem C7_amended (env : String → ChunkOutcome) (envN : String → NoaaOutcome)
    (st : CopState) (stN : NoaaState) (c : DT × DT) (rest : List (DT × DT))
    (key : String) (restK : List String)
    (h : chunkName c ∉ st.ledger)
    (hf : (env (chunkName c)).fetchOk = true)
    (hs : (env (chunkName c)).saveOk = true)
    (hu : (env (chunkName c)).uploadOk = true)
    (hc : (env (chunkName c)).commitOk = false)
    (hx : chunkName c ++ ".nc" ∉ st.staged) :
    ((copProcess env st c).1.persisted = st.persisted ∧
     (copProcess env st c).1.commitCalls = st.commitCalls ++ [chunkName c] ∧
     copRun env st (c :: rest) =
       ((copProcess env st c).1, some (.ledgerFail (chunkName c)))) ∧
    (noaaFilename key ∉ stN.completed → (envN key).getOk = true →
     (envN key).openOk = true → ((splitSlash key)[4]?).isSome = true →
     (envN key).saveOk = true → (envN key).uploadOk = true →
     (envN key).commitOk = false →
     pyReplace (noaaFilename key) ".grib2" ".nc" ∉ stN.staged →
      (noaaProcess envN stN key).persisted = stN.persisted ∧
      (noaaProcess envN stN key).errLogs = stN.errLogs ++ [noaaFilename key] ∧
      (noaaProcess envN stN key).completed =
        stN.completed ++ [noaaFilename key] ∧
      noaaRun envN stN (key :: restK) =
        noaaRun envN (noaaProcess envN stN key) restK) := by
  have hstep := copProcess_commitFail env st c h hf hs hu hc hx
  refine ⟨⟨?_, ?_, ?_⟩, ?_⟩
  · rw [hstep]
  · rw [hstep]
  · rw [hstep]
    exact copRun_cons_err2 env st _ c rest _ hstep
  · intro hnm hg ho hidx hsn hun hcn hxn
    have hstepN := noaaProcess_commitFail envN stN key hnm hg ho hidx hsn hun
      hcn hxn
    refine ⟨?_, ?_, ?_, noaaRun_cons envN stN key restK⟩ <;> rw [hstepN]

/-- Environment whose ledger write fails on every chunk. -/
def envC7c : String → ChunkOutcome := fun _ => ⟨true, true, true, false⟩

theorem C7_amended_witness :
    (copProcess envC7c (copInit []) chunkJan).1.persisted =
      (copInit ([] : List String)).persisted ∧
    copRun envC7c (copInit []) [chunkJan] =
      ((copProcess envC7c (copInit []) chunkJan).1,
        some (.ledgerFail (chunkName chunkJan))) :=
  ⟨(C7_amended envC7c envC7 (copInit []) (noaaInit []) chunkJan []
      "GEFSv12/reforecast/2019/20190101/f1.grib2" []
      (by decide) (by decide) (by decide) (by decide) (by decide)
      (by decide)).1.1,
   (C7_amended envC7c envC7 (copInit []) (noaaInit []) chunkJan []
      "GEFSv12/reforecast/2019/20190101/f1.grib2" []
      (by decide) (by decide) (by decide) (by decide) (by decide)
      (by decide)).1.2.2⟩
